import Mathlib

/-!
Verification development for the board-game core of the `stelsalto`
crate (`src/lib.rs`): board construction, the public-point to
grid-index coordinate mapper, piece lookup, single moves and jump
chains, the non-mutating trial variants, and the win detector.

Conventions of the shallow embedding:

* Rust `i32` values are modelled as `Int` and `usize` values as `Nat`.
* Mutating methods (`&mut self`) are modelled in state-passing style:
  they take the board and return the `Result` together with the board
  as it stands after the call, so that frame properties about failed
  calls are real statements rather than artefacts of the embedding.
* The cast `i32 as usize` sign-extends, so a negative `i32` becomes a
  value of at least `2^64 - 2^31`.  Every vector on a board is far
  shorter than that, hence a lookup at such an index misses, and a
  valid-column entry never equals such a value.  The embedding renders
  this as an explicit guard (`point.row ≤ 0` makes the row lookup miss,
  a negative `point.column` matches no valid column), which agrees with
  the observable behaviour of the source for every representable board.
* `usize` subtraction is modelled by truncated `Nat` subtraction.  No
  subtraction in the source underflows on any board `Board::new`
  builds, which is where the quantitative claims live.
-/

deriving instance DecidableEq for Except

/-- Piece enumeration of `src/lib.rs` (`enum Piece`): the six player
identities plus the `Empty` marker for unoccupied cells. -/
inductive Piece where
  | Head
  | Tail
  | LeftHand
  | RightHand
  | LeftFoot
  | RightFoot
  | Empty
  deriving DecidableEq, Repr

/-- Error enumeration of `src/lib.rs` (`enum GameError`). -/
inductive GameError where
  | WrongPlayer
  | OutOfBounds
  | NoRoute
  | OccupiedTarget
  | Exhausted
  deriving DecidableEq, Repr

/-- Configuration (`struct Config`).  The `symbols` map is used only by
the text renderer (`serialize`/`draw`), which none of the verified
operations touch, so it is omitted from the embedding. -/
structure Config where
  player_lines : Int
  deriving DecidableEq, Repr

/-- Public padded coordinates (`struct Point`), 1-indexed rows. -/
structure Point where
  row : Int
  column : Int
  deriving DecidableEq, Repr

/-- Internal grid indices (`struct IndexPair`), 0-indexed. -/
structure IndexPair where
  row : Nat
  column : Nat
  deriving DecidableEq, Repr

/-- Board state (`struct Board`): the jagged grid plus configuration. -/
structure Board where
  rows : List (List Piece)
  config : Config
  deriving DecidableEq, Repr

/-- Rows built by `Board::new` for `player_lines = n`, as five
concatenated bands.  Loop counters are reindexed from the source's
`for n in 1..=player_lines` (here `k = n - 1`) and from the reversed
`for n in (1..=player_lines).rev()` (here `k = player_lines - n`); each
`for _ in 0..c { row.push(p) }` loop contributes `List.replicate c p`. -/
def starRows (n : Nat) : List (List Piece) :=
  ((List.range n).map fun k => List.replicate (k + 1) Piece.Head)
    ++ ((List.range n).map fun k =>
          List.replicate (n - k) Piece.LeftHand
            ++ List.replicate (n + 1 + k) Piece.Empty
            ++ List.replicate (n - k) Piece.RightHand)
    ++ [List.replicate (2 * n + 1) Piece.Empty]
    ++ ((List.range n).map fun k =>
          List.replicate (k + 1) Piece.LeftFoot
            ++ List.replicate (2 * n - k) Piece.Empty
            ++ List.replicate (k + 1) Piece.RightFoot)
    ++ ((List.range n).map fun k => List.replicate (n - k) Piece.Tail)

/-- Board construction (`Board::new`).  For `player_lines ≤ 0` every
construction loop in the source runs zero times, matching `Int.toNat`. -/
def Board.new (config : Config) : Board :=
  { rows := starRows config.player_lines.toNat, config := config }

/-- Default configuration (`Config::default`): `player_lines = 4`. -/
def defaultConfig : Config := { player_lines := 4 }

/-- Default board (`Board::default`). -/
def Board.default : Board := Board.new defaultConfig

/-- Board of size `N` with the default symbol set, the "board of size
N" of the specification. -/
def stdBoard (n : Nat) : Board := Board.new { player_lines := (n : Int) }

/-- Distance measure shared by `move_piece` and `take_turn`:
`|Δcolumn| / 2` when the rows are equal and `|Δrow|` otherwise
(the source's `match source.row - target.row`). -/
def distance (source target : Point) : Nat :=
  if source.row - target.row = 0 then (source.column - target.column).natAbs / 2
  else (source.row - target.row).natAbs

/-- Sequential search, Rust's `Iterator::position`. -/
def position {α : Type _} (p : α → Bool) : List α → Option Nat
  | [] => none
  | a :: rest => if p a then some 0 else (position p rest).map (· + 1)

/-- Column offset of a row of the given length, the `let offset` match
on `row.len() % 2` inside `Board::get_index_pair`. -/
def offsetFor (len : Nat) : Nat :=
  if len % 2 = 0 then 1 + 2 * (len / 2 - 1) else 2 * ((len - 1) / 2)

/-- Valid padded column values of a grid row, as computed inside
`Board::get_index_pair`.  The inclusive Rust range
`(max - offset ..= max + offset).step_by(2)` contributes the
`offset + 1` values `max - offset + 2*i`, both bounds having the same
parity. -/
def validColumnsFor (max_pieces_per_row : Nat) (row : List Piece) : List Nat :=
  if row.length = 1 then [max_pieces_per_row]
  else
    (List.range (offsetFor row.length + 1)).map
      fun i => max_pieces_per_row - offsetFor row.length + 2 * i

/-- Coordinate mapper (`Board::get_index_pair`): maps a public point to
grid indices, failing when the row misses or the column is not among
the row's valid columns. -/
def Board.get_index_pair (b : Board) (point : Point) : Option IndexPair :=
  if point.row ≤ 0 then none
  else
    (b.rows[(point.row - 1).toNat]?).bind fun row =>
      if point.column < 0 then none
      else
        (position (fun x => x == point.column.toNat)
            (validColumnsFor (b.config.player_lines.toNat * 3 + 1) row)).map
          fun c => ⟨(point.row - 1).toNat, c⟩

/-- Double lookup into the jagged grid, the source's
`self.rows.get(i)?.get(j)?` (Rust's `?` on `Option` is `bind`). -/
def cellAt (rows : List (List Piece)) (i j : Nat) : Option Piece :=
  (rows[i]?).bind fun row => row[j]?

/-- Piece lookup (`Board::get_piece`). -/
def Board.get_piece (b : Board) (point : Point) : Option Piece :=
  (b.get_index_pair point).bind fun pair => cellAt b.rows pair.row pair.column

/-- Single cell update, the source's `self.rows[i][j] = p` (which only
ever runs at indices produced by a successful `get_index_pair`). -/
def setCell (rows : List (List Piece)) (i j : Nat) (p : Piece) : List (List Piece) :=
  (rows[i]?).elim rows fun row => rows.set i (row.set j p)

/-- Tail of `Board::move_piece` after all validation: recompute both
index pairs and write the two cells. -/
def Board.apply_move (b : Board) (source target : Point) (player : Piece) :
    Except GameError Unit × Board :=
  (b.get_index_pair source).elim (.error .OutOfBounds, b) fun source_indices =>
    (b.get_index_pair target).elim (.error .OutOfBounds, b) fun target_indices =>
      (.ok (),
        { b with
            rows :=
              setCell (setCell b.rows source_indices.row source_indices.column Piece.Empty)
                target_indices.row target_indices.column player })

/-- Atomic move (`Board::move_piece`), state-passing: the second
component is the board after the call. -/
def Board.move_piece (b : Board) (source target : Point) (player : Piece) :
    Except GameError Unit × Board :=
  if source = target ∨ 2 < distance source target then (.error .NoRoute, b)
  else
    (b.get_piece source).elim (.error .OutOfBounds, b) fun source_piece =>
      if source_piece ≠ player then (.error .WrongPlayer, b)
      else
        (b.get_piece target).elim (.error .OutOfBounds, b) fun target_piece =>
          if target_piece ≠ Piece.Empty then (.error .OccupiedTarget, b)
          else if distance source target = 2 then
            (b.get_piece
                ⟨max source.row target.row - 1,
                  max source.column target.column - 1⟩).elim
              (.error .OutOfBounds, b) fun middle_piece =>
              if middle_piece = Piece.Empty then (.error .NoRoute, b)
              else b.apply_move source target player
          else b.apply_move source target player

/-- Non-mutating trial move (`Board::try_move_piece`): runs
`move_piece` on a clone and reports only the outcome; the second
component is the caller's board, which the source never touches. -/
def Board.try_move_piece (b : Board) (source target : Point) (player : Piece) :
    Except GameError Unit × Board :=
  let test_board := b
  ((test_board.move_piece source target player).1, b)

/-- Segment loop of `Board::take_turn`: apply `move_piece` over the
consecutive pairs, stopping at (and propagating) the first error while
keeping whatever mutations already happened. -/
def Board.moveChain (b : Board) (player : Piece) : Point → List Point →
    Except GameError Unit × Board
  | _, [] => (.ok (), b)
  | prev, point :: rest =>
    match b.move_piece prev point player with
    | (.ok _, b1) => b1.moveChain player point rest
    | (.error e, b1) => (.error e, b1)

/-- Full turn (`Board::take_turn`).  The source computes the segment
distances only when `points.len() > 2`; computing them unconditionally
and guarding the `Exhausted` test with `2 < points.length` is the same
function. -/
def Board.take_turn (b : Board) (points : List Point) (player : Piece) :
    Except GameError Unit × Board :=
  if points.length < 2 then (.error .NoRoute, b)
  else
    if 2 < points.length ∧
        1 < ((points.zip points.tail).map fun pr => distance pr.2 pr.1).length ∧
        ((points.zip points.tail).map fun pr => distance pr.2 pr.1).any (fun x => x != 2)
          = true then
      (.error .Exhausted, b)
    else
      match points with
      | [] => (.ok (), b)
      | first :: rest => b.moveChain player first rest

/-- Non-mutating trial turn (`Board::try_turn`). -/
def Board.try_turn (b : Board) (points : List Point) (player : Piece) :
    Except GameError Unit × Board :=
  let test_board := b
  ((test_board.take_turn points player).1, b)

/-- Per-variant win-zone table of `Board::has_player_won`:
`(reversed, increasing, start)`; `none` encodes the source's immediate
`return false` for `Empty`. -/
def zoneParams (piece : Piece) (pl : Nat) : Option (Bool × Bool × Nat) :=
  match piece with
  | .Head => some (false, false, pl * 3 + 1)
  | .LeftHand => some (true, true, pl * 2 + 1)
  | .RightHand => some (false, true, pl * 2 + 1)
  | .LeftFoot => some (true, false, pl)
  | .RightFoot => some (false, false, pl)
  | .Tail => some (false, true, 0)
  | .Empty => none

/-- Per-row span of the zone scan, the source's
`let offset = match increasing`. -/
def zoneOffset (increasing : Bool) (pl n : Nat) : Nat :=
  if increasing then n + 1 else pl - n

/-- Check of one zone row in `Board::has_player_won`: the `row_part`
(first or last `offset` cells by `reversed`) must be all the piece. -/
def rowCheck (piece : Piece) (pl : Nat) (reversed increasing : Bool) (n : Nat)
    (row : List Piece) : Bool :=
  (if reversed then row.reverse.take (zoneOffset increasing pl n)
   else row.take (zoneOffset increasing pl n)).all fun x => x == piece

/-- Row scan of `Board::has_player_won` over the zone's rows, carrying
the `enumerate` counter; the early `return false` is the `&&`. -/
def wonRows (piece : Piece) (pl : Nat) (reversed increasing : Bool) :
    List (List Piece) → Nat → Bool
  | [], _ => true
  | row :: rest, n =>
    rowCheck piece pl reversed increasing n row
      && wonRows piece pl reversed increasing rest (n + 1)

/-- Win detector (`Board::has_player_won`).  The slice
`self.rows[start..start + pl]` is `(drop start).take pl`; on every
board `Board::new` builds, `start + pl` is within range for each
variant, so the slice never panics. -/
def Board.has_player_won (b : Board) (piece : Piece) : Bool :=
  (zoneParams piece b.config.player_lines.toNat).elim false fun pr =>
    wonRows piece b.config.player_lines.toNat pr.1 pr.2.1
      ((b.rows.drop pr.2.2).take b.config.player_lines.toNat) 0

/-- Closed form of the row widths `Board::new` produces, 0-indexed:
the ascending head triangle, the upper side band, the equator, the
lower side band, and the descending tail triangle. -/
def rowWidth (n k : Nat) : Nat :=
  if k < n then k + 1
  else if k < 2 * n then 3 * n + 1 - (k - n)
  else if k = 2 * n then 2 * n + 1
  else if k < 3 * n + 1 then 2 * n + 2 + (k - (2 * n + 1))
  else n - (k - (3 * n + 1))

lemma zoneOffset_true (pl n : Nat) : zoneOffset true pl n = n + 1 := rfl

lemma zoneOffset_false (pl n : Nat) : zoneOffset false pl n = pl - n := rfl

/-- Case analysis on `move_piece`: every outcome either leaves the
board untouched or is a success. -/
lemma apply_move_cases (b : Board) (s t : Point) (p : Piece) :
    (b.apply_move s t p).2 = b ∨ (b.apply_move s t p).1 = .ok () := by
  unfold Board.apply_move
  cases b.get_index_pair s with
  | none => exact Or.inl rfl
  | some si =>
    cases b.get_index_pair t with
    | none => exact Or.inl rfl
    | some ti => exact Or.inr rfl

/-- Case analysis on `move_piece`: every outcome either leaves the
board untouched or is a success. -/
lemma move_piece_cases (b : Board) (s t : Point) (p : Piece) :
    (b.move_piece s t p).2 = b ∨ (b.move_piece s t p).1 = .ok () := by
  unfold Board.move_piece
  split
  · exact Or.inl rfl
  · cases b.get_piece s with
    | none => exact Or.inl rfl
    | some sp =>
      rw [Option.elim_some]
      split
      · exact Or.inl rfl
      · cases b.get_piece t with
        | none => exact Or.inl rfl
        | some tp =>
          rw [Option.elim_some]
          split
          · exact Or.inl rfl
          · split
            · cases b.get_piece
                ⟨max s.row t.row - 1, max s.column t.column - 1⟩ with
              | none => exact Or.inl rfl
              | some mp =>
                rw [Option.elim_some]
                split
                · exact Or.inl rfl
                · exact apply_move_cases b s t p
            · exact apply_move_cases b s t p

example :
    stdBoard 1 =
      { rows :=
          [[Piece.Head],
           [Piece.LeftHand, Piece.Empty, Piece.Empty, Piece.RightHand],
           [Piece.Empty, Piece.Empty, Piece.Empty],
           [Piece.LeftFoot, Piece.Empty, Piece.Empty, Piece.RightFoot],
           [Piece.Tail]],
        config := { player_lines := 1 } } := by decide

example : Board.default.get_piece ⟨1, 1⟩ = none := by decide
example : Board.default.get_piece ⟨1, 12⟩ = none := by decide
example : Board.default.get_piece ⟨1, 13⟩ = some Piece.Head := by decide
example : Board.default.get_piece ⟨5, 17⟩ = some Piece.Empty := by decide
example : Board.default.get_piece ⟨5, 19⟩ = some Piece.RightHand := by decide
example : Board.default.get_piece ⟨2, 12⟩ = some Piece.Head := by decide
example : Board.default.get_piece ⟨6, 2⟩ = some Piece.LeftHand := by decide
example : Board.default.get_piece ⟨6, 8⟩ = some Piece.Empty := by decide
example : (Board.default.try_move_piece ⟨4, 10⟩ ⟨5, 11⟩ .Head).1 = .ok () := by decide
example : (Board.default.try_move_piece ⟨1, 13⟩ ⟨7, 13⟩ .Head).1 = .error .NoRoute := by decide
example : (Board.default.try_move_piece ⟨4, 10⟩ ⟨6, 12⟩ .Head).1 = .error .NoRoute := by decide
example : (Board.default.try_move_piece ⟨1, 13⟩ ⟨2, 12⟩ .Head).1 = .error .OccupiedTarget := by
  decide
example : (Board.default.try_move_piece ⟨1, 13⟩ ⟨1, 12⟩ .Head).1 = .error .OutOfBounds := by
  decide
example : (Board.default.try_move_piece ⟨4, 10⟩ ⟨5, 11⟩ .Tail).1 = .error .WrongPlayer := by
  decide
example : (Board.default.try_turn [⟨3, 11⟩, ⟨5, 13⟩] .Head).1 = .ok () := by decide
example :
    (Board.default.try_turn [⟨4, 10⟩, ⟨5, 11⟩, ⟨6, 12⟩] .Head).1 = .error .Exhausted := by decide
example :
    ((Board.default.move_piece ⟨4, 10⟩ ⟨5, 11⟩ .Head).2.try_turn
      [⟨3, 11⟩, ⟨5, 13⟩, ⟨5, 9⟩] .Head).1 = .ok () := by decide

/-- Success of `get_piece` yields the index pair and the cell. -/
lemma get_piece_some_pair {b : Board} {q : Point} {x : Piece}
    (h : b.get_piece q = some x) :
    ∃ pr, b.get_index_pair q = some pr ∧ cellAt b.rows pr.row pr.column = some x := by
  unfold Board.get_piece at h
  cases hp : b.get_index_pair q with
  | none => rw [hp, Option.none_bind] at h; exact absurd h (by simp)
  | some pr => rw [hp, Option.some_bind] at h; exact ⟨pr, rfl, h⟩

/-- C10: whenever the mutating `move_piece` returns an error, the board
it returns is exactly the board it was given — all validation happens
before any cell is written. -/
theorem spec_c10_move_error_frame (b : Board) (s t : Point) (p : Piece) (e : GameError)
    (h : (b.move_piece s t p).1 = .error e) : (b.move_piece s t p).2 = b := by
  rcases move_piece_cases b s t p with h2 | h2
  · exact h2
  · rw [h2] at h
    exact Except.noConfusion h

theorem spec_c10_witness :
    (Board.default.move_piece ⟨1, 13⟩ ⟨1, 12⟩ .Head).2 = Board.default :=
  spec_c10_move_error_frame Board.default ⟨1, 13⟩ ⟨1, 12⟩ .Head .OutOfBounds (by decide)

/-- C2: the concrete scenarios on the default (`N = 4`) board: the
plain move `(4,10) → (5,11)` for Head succeeds; `(1,13) → (7,13)`
fails with `NoRoute`; `(1,13) → (2,12)` fails with `OccupiedTarget`;
`(1,13) → (1,12)` fails with `OutOfBounds`; and the turn
`[(4,10),(5,11),(6,12)]` for Head fails with `Exhausted`. -/
theorem spec_c2_default_board_scenarios :
    (Board.default.move_piece ⟨4, 10⟩ ⟨5, 11⟩ .Head).1 = .ok () ∧
    (Board.default.move_piece ⟨1, 13⟩ ⟨7, 13⟩ .Head).1 = .error .NoRoute ∧
    (Board.default.move_piece ⟨1, 13⟩ ⟨2, 12⟩ .Head).1 = .error .OccupiedTarget ∧
    (Board.default.move_piece ⟨1, 13⟩ ⟨1, 12⟩ .Head).1 = .error .OutOfBounds ∧
    (Board.default.take_turn [⟨4, 10⟩, ⟨5, 11⟩, ⟨6, 12⟩] .Head).1 = .error .Exhausted := by
  decide

/-- C4: the trial variants leave the board they are called on unchanged
(the second component of the state-passing embedding is the caller's
board, which the source's clone-and-mutate never touches) and report
exactly the outcome of the corresponding mutating operation. -/
theorem spec_c4_try_variants (b : Board) (points : List Point) (s t : Point) (p : Piece) :
    (b.try_move_piece s t p).2 = b ∧
    (b.try_move_piece s t p).1 = (b.move_piece s t p).1 ∧
    (b.try_turn points p).2 = b ∧
    (b.try_turn points p).1 = (b.take_turn points p).1 :=
  ⟨rfl, rfl, rfl, rfl⟩

/-- C3: a turn of fewer than 2 points fails with `NoRoute`, and a turn
of 3 or more points in which some consecutive pair is not at distance
exactly 2 fails with `Exhausted` (leaving the board untouched), so a
turn is a single plain move, a single jump, or a pure jump chain. -/
theorem spec_c3_turn_shape (b : Board) (player : Piece) :
    (∀ points : List Point, points.length < 2 →
      b.take_turn points player = (.error .NoRoute, b)) ∧
    (∀ points : List Point, 3 ≤ points.length →
      (∃ pr ∈ points.zip points.tail, distance pr.2 pr.1 ≠ 2) →
      b.take_turn points player = (.error .Exhausted, b)) := by
  constructor
  · intro points h
    unfold Board.take_turn
    rw [if_pos h]
  · intro points hlen hex
    obtain ⟨pr, hmem, hne⟩ := hex
    unfold Board.take_turn
    rw [if_neg (by omega)]
    rw [if_pos ?_]
    refine ⟨by omega, ?_, ?_⟩
    · simp only [List.length_map, List.length_zip, List.length_tail]
      omega
    · exact List.any_eq_true.mpr
        ⟨distance pr.2 pr.1, List.mem_map.mpr ⟨pr, hmem, rfl⟩, by simpa using hne⟩

theorem spec_c3_witness :
    Board.default.take_turn [] .Head = (.error .NoRoute, Board.default) ∧
    Board.default.take_turn [⟨4, 10⟩, ⟨5, 11⟩, ⟨6, 12⟩] .Head
      = (.error .Exhausted, Board.default) :=
  ⟨(spec_c3_turn_shape Board.default .Head).1 [] (by decide),
   (spec_c3_turn_shape Board.default .Head).2 [⟨4, 10⟩, ⟨5, 11⟩, ⟨6, 12⟩] (by decide)
     ⟨(⟨4, 10⟩, ⟨5, 11⟩), by decide, by decide⟩⟩

/-- C1 (amended): for a jump (distance exactly 2) whose earlier checks
all pass, the midpoint cell decides the outcome — `NoRoute` when it
maps to an `Empty` cell, `OutOfBounds` when it maps to no valid cell,
and success exactly when it holds any non-`Empty` piece. -/
theorem spec_c1_jump_midpoint (b : Board) (s t : Point) (p : Piece)
    (hst : s ≠ t) (hd : distance s t = 2)
    (hs : b.get_piece s = some p) (ht : b.get_piece t = some .Empty) :
    (b.get_piece ⟨max s.row t.row - 1, max s.column t.column - 1⟩ = none →
      (b.move_piece s t p).1 = .error .OutOfBounds) ∧
    (b.get_piece ⟨max s.row t.row - 1, max s.column t.column - 1⟩ = some .Empty →
      (b.move_piece s t p).1 = .error .NoRoute) ∧
    (∀ q, b.get_piece ⟨max s.row t.row - 1, max s.column t.column - 1⟩ = some q →
      q ≠ .Empty → (b.move_piece s t p).1 = .ok ()) := by
  have hroute : ¬(s = t ∨ 2 < distance s t) := by
    rw [hd]
    exact fun h => h.elim hst (by omega)
  have hred : b.move_piece s t p =
      (b.get_piece ⟨max s.row t.row - 1, max s.column t.column - 1⟩).elim
        (.error .OutOfBounds, b) (fun middle_piece =>
          if middle_piece = Piece.Empty then (.error .NoRoute, b)
          else b.apply_move s t p) := by
    unfold Board.move_piece
    rw [if_neg hroute, hs, ht]
    simp [hd]
  refine ⟨?_, ?_, ?_⟩
  · intro hm
    rw [hred, hm, Option.elim_none]
  · intro hm
    rw [hred, hm, Option.elim_some]
    simp
  · intro q hm hq
    rw [hred, hm, Option.elim_some]
    simp only [if_neg hq]
    obtain ⟨si, hsi, -⟩ := get_piece_some_pair hs
    obtain ⟨ti, hti, -⟩ := get_piece_some_pair ht
    unfold Board.apply_move
    rw [hsi, hti, Option.elim_some, Option.elim_some]

theorem spec_c1_witness :
    (Board.default.move_piece ⟨3, 11⟩ ⟨5, 13⟩ .Head).1 = .ok () ∧
    (Board.default.move_piece ⟨4, 10⟩ ⟨6, 12⟩ .Head).1 = .error .NoRoute :=
  ⟨(spec_c1_jump_midpoint Board.default ⟨3, 11⟩ ⟨5, 13⟩ .Head (by decide) (by decide)
      (by decide) (by decide)).2.2 .Head (by decide) (by decide),
   (spec_c1_jump_midpoint Board.default ⟨4, 10⟩ ⟨6, 12⟩ .Head (by decide) (by decide)
      (by decide) (by decide)).2.1 (by decide)⟩

/-- C1 (counterexample to the claim as stated): on a one-row board the
jump `(1,2) → (1,6)` passes every earlier check and its midpoint
`(0,5)` maps to no valid cell, yet `move_piece` fails with
`OutOfBounds`, not `NoRoute`. -/
theorem spec_c1_counterexample :
    ((⟨1, 2⟩ : Point) ≠ ⟨1, 6⟩) ∧
    distance ⟨1, 2⟩ ⟨1, 6⟩ = 2 ∧
    (Board.mk [[.Head, .Empty, .Empty]] ⟨1⟩).get_piece ⟨1, 2⟩ = some .Head ∧
    (Board.mk [[.Head, .Empty, .Empty]] ⟨1⟩).get_piece ⟨1, 6⟩ = some .Empty ∧
    (Board.mk [[.Head, .Empty, .Empty]] ⟨1⟩).get_piece ⟨0, 5⟩ = none ∧
    (Board.mk [[.Head, .Empty, .Empty]] ⟨1⟩).move_piece ⟨1, 2⟩ ⟨1, 6⟩ .Head
      = (.error .OutOfBounds, Board.mk [[.Head, .Empty, .Empty]] ⟨1⟩) := by
  decide

/-- Lookup into a mapped range. -/
lemma getElem?_map_range {α : Type _} (f : Nat → α) (n k : Nat) :
    ((List.range n).map f)[k]? = if k < n then some (f k) else none := by
  split
  · rw [List.getElem?_map, List.getElem?_range ‹k < n›]
    rfl
  · rw [List.getElem?_map, List.getElem?_eq_none (by simp; omega)]
    rfl

/-- Left lookup into an append. -/
lemma getElem?_append_left' {α : Type _} (l₁ l₂ : List α) (k : Nat) (h : k < l₁.length) :
    (l₁ ++ l₂)[k]? = l₁[k]? := by
  rw [List.getElem?_append]
  exact if_pos h

/-- Board::new yields `4n+1` rows. -/
lemma starRows_length (n : Nat) : (starRows n).length = 4 * n + 1 := by
  simp [starRows]
  omega

/-- Every in-range row of `Board::new`'s grid exists and has width
`rowWidth`. -/
lemma starRows_get (n k : Nat) (hk : k < 4 * n + 1) :
    ∃ row, (starRows n)[k]? = some row ∧ row.length = rowWidth n k := by
  unfold starRows
  rcases Nat.lt_or_ge k n with h1 | h1
  · rw [getElem?_append_left' _ _ _ (by simp only [List.length_append, List.length_map, List.length_range, List.length_singleton]; omega),
      getElem?_append_left' _ _ _ (by simp only [List.length_append, List.length_map, List.length_range, List.length_singleton]; omega),
      getElem?_append_left' _ _ _ (by simp only [List.length_append, List.length_map, List.length_range, List.length_singleton]; omega),
      getElem?_append_left' _ _ _ (by simp only [List.length_append, List.length_map, List.length_range, List.length_singleton]; omega),
      getElem?_map_range, if_pos h1]
    refine ⟨_, rfl, ?_⟩
    rw [List.length_replicate]
    unfold rowWidth
    rw [if_pos h1]
  rcases Nat.lt_or_ge k (2 * n) with h2 | h2
  · rw [getElem?_append_left' _ _ _ (by simp only [List.length_append, List.length_map, List.length_range, List.length_singleton]; omega),
      getElem?_append_left' _ _ _ (by simp only [List.length_append, List.length_map, List.length_range, List.length_singleton]; omega),
      getElem?_append_left' _ _ _ (by simp only [List.length_append, List.length_map, List.length_range, List.length_singleton]; omega),
      List.getElem?_append_right (by simp only [List.length_append, List.length_map, List.length_range, List.length_singleton]; omega)]
    simp only [List.length_append, List.length_map, List.length_range, List.length_singleton]
    rw [getElem?_map_range, if_pos (by omega)]
    refine ⟨_, rfl, ?_⟩
    simp only [List.length_append, List.length_replicate]
    unfold rowWidth
    rw [if_neg (by omega), if_pos (by omega)]
    omega
  rcases Nat.lt_or_ge k (2 * n + 1) with h3 | h3
  · rw [getElem?_append_left' _ _ _ (by simp only [List.length_append, List.length_map, List.length_range, List.length_singleton]; omega),
      getElem?_append_left' _ _ _ (by simp only [List.length_append, List.length_map, List.length_range, List.length_singleton]; omega),
      List.getElem?_append_right (by simp only [List.length_append, List.length_map, List.length_range, List.length_singleton]; omega)]
    simp only [List.length_append, List.length_map, List.length_range, List.length_singleton]
    have he : k - (n + n) = 0 := by omega
    rw [he, List.getElem?_cons_zero]
    refine ⟨_, rfl, ?_⟩
    rw [List.length_replicate]
    unfold rowWidth
    rw [if_neg (by omega), if_neg (by omega), if_pos (by omega)]
  rcases Nat.lt_or_ge k (3 * n + 1) with h4 | h4
  · rw [getElem?_append_left' _ _ _ (by simp only [List.length_append, List.length_map, List.length_range, List.length_singleton]; omega),
      List.getElem?_append_right (by simp only [List.length_append, List.length_map, List.length_range, List.length_singleton]; omega)]
    simp only [List.length_append, List.length_map, List.length_range, List.length_singleton]
    rw [getElem?_map_range, if_pos (by omega)]
    refine ⟨_, rfl, ?_⟩
    simp only [List.length_append, List.length_replicate]
    unfold rowWidth
    rw [if_neg (by omega), if_neg (by omega), if_neg (by omega), if_pos (by omega)]
    omega
  · rw [List.getElem?_append_right (by simp only [List.length_append, List.length_map, List.length_range, List.length_singleton]; omega)]
    simp only [List.length_append, List.length_map, List.length_range, List.length_singleton]
    rw [getElem?_map_range, if_pos (by omega)]
    refine ⟨_, rfl, ?_⟩
    rw [List.length_replicate]
    unfold rowWidth
    rw [if_neg (by omega), if_neg (by omega), if_neg (by omega), if_neg (by omega)]
    omega

/-- Rows of the size-`N` board, reduced to `starRows`. -/
lemma stdBoard_rows (n : Nat) : (stdBoard n).rows = starRows n := by
  unfold stdBoard Board.new
  simp

/-- Configured width parameter of the size-`N` board. -/
lemma stdBoard_pl (n : Nat) : (stdBoard n).config.player_lines.toNat = n := by
  unfold stdBoard Board.new
  simp

/-- C9: for every board size `N ≥ 1`, `Board::new` produces exactly
`4N+1` rows. -/
theorem spec_c9_row_count (N : Nat) (hN : 1 ≤ N) :
    (stdBoard N).rows.length = 4 * N + 1 := by
  rw [stdBoard_rows, starRows_length]

theorem spec_c9_witness : (stdBoard 4).rows.length = 4 * 4 + 1 :=
  spec_c9_row_count 4 (by omega)

/-- C8 (amended): row widths mirror symmetrically top-to-bottom (rows
`i` and `4N+2-i`, 1-indexed, have equal length) and the widest rows
have length `3N+1` (not `2N+1`). -/
theorem spec_c8_row_symmetry_and_width (N : Nat) (hN : 1 ≤ N) :
    (∀ i : Nat, 1 ≤ i → i ≤ 4 * N + 1 →
      ((stdBoard N).rows[i - 1]?).map List.length
        = ((stdBoard N).rows[4 * N + 1 - i]?).map List.length) ∧
    (∀ row ∈ (stdBoard N).rows, row.length ≤ 3 * N + 1) ∧
    (∃ row ∈ (stdBoard N).rows, row.length = 3 * N + 1) := by
  refine ⟨?_, ?_, ?_⟩
  · intro i hi1 hi2
    rw [stdBoard_rows]
    obtain ⟨row1, hrow1, hlen1⟩ := starRows_get N (i - 1) (by omega)
    obtain ⟨row2, hrow2, hlen2⟩ := starRows_get N (4 * N + 1 - i) (by omega)
    rw [hrow1, hrow2, Option.map_some', Option.map_some', hlen1, hlen2]
    refine congrArg some ?_
    unfold rowWidth
    split_ifs <;> omega
  · intro row hmem
    rw [stdBoard_rows] at hmem
    obtain ⟨k, hk⟩ := List.mem_iff_getElem?.mp hmem
    have hklt : k < 4 * N + 1 := by
      obtain ⟨hlt, -⟩ := List.getElem?_eq_some.mp hk
      rwa [starRows_length] at hlt
    obtain ⟨row', hrow', hlen'⟩ := starRows_get N k hklt
    rw [hrow'] at hk
    cases hk
    rw [hlen']
    unfold rowWidth
    split_ifs <;> omega
  · obtain ⟨row, hrow, hlen⟩ := starRows_get N N (by omega)
    refine ⟨row, ?_, ?_⟩
    · rw [stdBoard_rows]
      exact List.mem_iff_getElem?.mpr ⟨N, hrow⟩
    · rw [hlen]
      unfold rowWidth
      rw [if_neg (by omega), if_pos (by omega)]
      omega

theorem spec_c8_witness :
    ((stdBoard 1).rows[0]?).map List.length = ((stdBoard 1).rows[4]?).map List.length ∧
    ∃ row ∈ (stdBoard 1).rows, row.length = 3 * 1 + 1 :=
  ⟨(spec_c8_row_symmetry_and_width 1 (by omega)).1 1 (by omega) (by omega),
   (spec_c8_row_symmetry_and_width 1 (by omega)).2.2⟩

/-- C8 (counterexample to the claim as stated): on the size-1 board the
second row has length 4, which exceeds the claimed maximum width
`2N+1 = 3`. -/
theorem spec_c8_counterexample :
    ∃ row ∈ (stdBoard 1).rows, 2 * 1 + 1 < row.length := by
  decide

/-- A found position points at an element satisfying the predicate. -/
lemma position_eq_some {α : Type _} {p : α → Bool} {l : List α} {i : Nat}
    (h : position p l = some i) : ∃ a, l[i]? = some a ∧ p a = true := by
  induction l generalizing i with
  | nil => simp [position] at h
  | cons a rest ih =>
    rw [position] at h
    by_cases hpa : p a
    · rw [if_pos hpa] at h
      cases h
      exact ⟨a, List.getElem?_cons_zero, hpa⟩
    · rw [if_neg hpa] at h
      cases hrest : position p rest with
      | none => rw [hrest] at h; exact absurd h (by simp)
      | some j =>
        rw [hrest, Option.map_some'] at h
        cases h
        obtain ⟨a', ha', hpa'⟩ := ih hrest
        exact ⟨a', by rw [List.getElem?_cons_succ]; exact ha', hpa'⟩

/-- A position search succeeds exactly when some element satisfies the
predicate. -/
lemma position_isSome_iff {α : Type _} (p : α → Bool) (l : List α) :
    (position p l).isSome = true ↔ ∃ a ∈ l, p a = true := by
  induction l with
  | nil => simp [position]
  | cons a rest ih =>
    rw [position]
    by_cases hpa : p a
    · simp [hpa]
    · rw [if_neg hpa]
      rw [Option.isSome_map']
      rw [ih]
      simp [hpa]

/-- The parity match in the source computes `length - 1` for every
nonempty row. -/
lemma offsetFor_eq (len : Nat) (h : 1 ≤ len) : offsetFor len = len - 1 := by
  unfold offsetFor
  split_ifs with h2 <;> omega

/-- For a nonempty row the valid columns are the arithmetic sequence of
spacing 2 and count `length` centered on the maximum column. -/
lemma validColumnsFor_eq (maxP : Nat) (row : List Piece) (h : 1 ≤ row.length) :
    validColumnsFor maxP row
      = (List.range row.length).map fun i => maxP - (row.length - 1) + 2 * i := by
  unfold validColumnsFor
  by_cases h1 : row.length = 1
  · rw [if_pos h1, h1]
    simp [List.range_succ]
  · rw [if_neg h1, offsetFor_eq _ h]
    have h2 : row.length - 1 + 1 = row.length := by omega
    rw [h2]

/-- Characterization of `get_piece` on a present row: it finds a piece
exactly at the columns of the row's valid-column sequence. -/
lemma get_piece_isSome_iff (b : Board) (q : Point) (row : List Piece)
    (h1 : 1 ≤ q.row)
    (hrow : b.rows[(q.row - 1).toNat]? = some row)
    (hL1 : 1 ≤ row.length)
    (hmax : row.length ≤ b.config.player_lines.toNat * 3 + 2) :
    ((b.get_piece q).isSome = true) ↔
      ∃ i : Nat, i < row.length ∧
        q.column = ((b.config.player_lines.toNat * 3 + 1 : Nat) : Int)
          - ((row.length : Int) - 1) + 2 * (i : Int) := by
  unfold Board.get_piece Board.get_index_pair
  rw [if_neg (by omega), hrow, Option.some_bind]
  by_cases hc : q.column < 0
  · rw [if_pos hc, Option.none_bind]
    constructor
    · intro hfalse
      exact absurd hfalse (by simp)
    · rintro ⟨i, hi, hcol⟩
      exfalso
      omega
  · rw [if_neg hc, validColumnsFor_eq _ _ hL1]
    cases hpos : position (fun x => x == q.column.toNat)
        ((List.range row.length).map
          fun i => b.config.player_lines.toNat * 3 + 1 - (row.length - 1) + 2 * i) with
    | none =>
      rw [Option.map_none', Option.none_bind]
      have hno : ¬ ∃ a ∈ (List.range row.length).map
          (fun i => b.config.player_lines.toNat * 3 + 1 - (row.length - 1) + 2 * i),
          (a == q.column.toNat) = true := by
        rw [← position_isSome_iff, hpos]
        simp
      constructor
      · intro hfalse
        exact absurd hfalse (by simp)
      · rintro ⟨i, hi, hcol⟩
        exact absurd
          ⟨b.config.player_lines.toNat * 3 + 1 - (row.length - 1) + 2 * i,
            List.mem_map.mpr ⟨i, List.mem_range.mpr hi, rfl⟩,
            beq_iff_eq.mpr (by omega)⟩ hno
    | some c =>
      rw [Option.map_some', Option.some_bind]
      obtain ⟨a, ha, hpa⟩ := position_eq_some hpos
      rw [getElem?_map_range] at ha
      by_cases hcL : c < row.length
      · rw [if_pos hcL] at ha
        cases ha
        rw [beq_iff_eq] at hpa
        apply iff_of_true
        · show (cellAt b.rows (q.row - 1).toNat c).isSome = true
          unfold cellAt
          rw [hrow, Option.some_bind, List.getElem?_eq_getElem hcL]
          rfl
        · exact ⟨c, hcL, by omega⟩
      · rw [if_neg hcL] at ha
        exact absurd ha (by simp)

/-- Width bounds for every in-range row of a size-`n` board. -/
lemma rowWidth_bounds (n k : Nat) (hn : 1 ≤ n) (hk : k < 4 * n + 1) :
    1 ≤ rowWidth n k ∧ rowWidth n k ≤ 3 * n + 1 := by
  unfold rowWidth
  split_ifs <;> omega

/-- C6: on the size-`N` board, `get_piece` misses for every out-of-range
row (including row 0 and negative rows) and, on an in-range row, finds
a piece exactly at the columns of the row's valid-column sequence — the
arithmetic sequence of spacing 2 centered on column `3N+1` with count
equal to the row's length. -/
theorem spec_c6_coordinate_mapper (N : Nat) (hN : 1 ≤ N) (p : Point) :
    (p.row ≤ 0 ∨ 4 * N + 1 < p.row → (stdBoard N).get_piece p = none) ∧
    (1 ≤ p.row → p.row ≤ 4 * N + 1 →
      ∃ row, (stdBoard N).rows[(p.row - 1).toNat]? = some row ∧
        (((stdBoard N).get_piece p).isSome = true ↔
          ∃ i : Nat, i < row.length ∧
            p.column = 3 * (N : Int) + 1 - ((row.length : Int) - 1) + 2 * (i : Int))) := by
  constructor
  · intro h
    rcases h with h | h
    · unfold Board.get_piece Board.get_index_pair
      rw [if_pos h, Option.none_bind]
    · have hnone : (stdBoard N).rows[(p.row - 1).toNat]? = none := by
        apply List.getElem?_eq_none
        rw [stdBoard_rows, starRows_length]
        omega
      unfold Board.get_piece Board.get_index_pair
      rw [if_neg (by omega), hnone, Option.none_bind, Option.none_bind]
  · intro hlo hhi
    obtain ⟨row, hrow, hlen⟩ := starRows_get N (p.row - 1).toNat (by omega)
    have hrow2 : (stdBoard N).rows[(p.row - 1).toNat]? = some row := by
      rw [stdBoard_rows]
      exact hrow
    have hbounds := rowWidth_bounds N (p.row - 1).toNat hN (by omega)
    have h := get_piece_isSome_iff (stdBoard N) p row hlo hrow2
      (by omega) (by rw [stdBoard_pl]; omega)
    rw [stdBoard_pl] at h
    refine ⟨row, hrow2, h.trans ?_⟩
    constructor
    · rintro ⟨i, hi, hcol⟩
      exact ⟨i, hi, by omega⟩
    · rintro ⟨i, hi, hcol⟩
      exact ⟨i, hi, by omega⟩

theorem spec_c6_witness :
    (stdBoard 1).get_piece ⟨0, 3⟩ = none ∧
    ((stdBoard 1).get_piece ⟨2, 3⟩).isSome = true := by
  refine ⟨(spec_c6_coordinate_mapper 1 (by omega) ⟨0, 3⟩).1 (Or.inl (by decide)), ?_⟩
  obtain ⟨row, hrow, hiff⟩ :=
    (spec_c6_coordinate_mapper 1 (by omega) ⟨2, 3⟩).2 (by decide) (by decide)
  have hconc : (stdBoard 1).rows[(((2 : Int)) - 1).toNat]?
      = some [Piece.LeftHand, Piece.Empty, Piece.Empty, Piece.RightHand] := by decide
  injection hconc.symm.trans hrow with hroweq
  subst hroweq
  exact hiff.mpr ⟨1, by decide, by decide⟩

example :
    (Board.mk
      [[.Tail], [.Tail, .Tail],
       [.RightFoot, .RightFoot, .Empty, .Empty, .Empty, .LeftFoot, .LeftFoot],
       [.RightFoot, .Empty, .Empty, .Empty, .Empty, .LeftFoot],
       [.Empty, .Empty, .Empty, .Empty, .Empty],
       [.RightHand, .Empty, .Empty, .Empty, .Empty, .LeftHand],
       [.RightHand, .RightHand, .Empty, .Empty, .Empty, .LeftHand, .LeftHand],
       [.Head, .Head], [.Head]] ⟨2⟩).has_player_won .Head = true := by decide

example :
    (Board.mk
      [[.Tail], [.Tail, .Tail],
       [.RightFoot, .RightFoot, .Empty, .Empty, .Empty, .LeftFoot, .LeftFoot],
       [.RightFoot, .Empty, .Empty, .Empty, .Empty, .LeftFoot],
       [.Empty, .Empty, .Empty, .Empty, .Empty],
       [.RightHand, .Empty, .Empty, .Empty, .Empty, .LeftHand],
       [.RightHand, .RightHand, .Empty, .Empty, .Empty, .LeftHand, .LeftHand],
       [.Head, .Head], [.Head]] ⟨2⟩).has_player_won .LeftHand = true := by decide

example :
    (Board.mk
      [[.Head], [.Tail, .Tail],
       [.LeftHand, .RightFoot, .Empty, .Empty, .Empty, .LeftFoot, .RightHand],
       [.RightFoot, .Empty, .Empty, .Empty, .Empty, .LeftFoot],
       [.Empty, .Empty, .Empty, .Empty, .Empty],
       [.RightHand, .Empty, .Empty, .Empty, .Empty, .LeftHand],
       [.LeftFoot, .RightHand, .Empty, .Empty, .Empty, .LeftHand, .RightFoot],
       [.Head, .Head], [.Tail]] ⟨2⟩).has_player_won .Tail = false := by decide

example :
    (Board.mk
      [[.Head], [.Tail, .Tail],
       [.LeftHand, .RightFoot, .Empty, .Empty, .Empty, .LeftFoot, .RightHand],
       [.RightFoot, .Empty, .Empty, .Empty, .Empty, .LeftFoot],
       [.Empty, .Empty, .Empty, .Empty, .Empty],
       [.RightHand, .Empty, .Empty, .Empty, .Empty, .LeftHand],
       [.LeftFoot, .RightHand, .Empty, .Empty, .Empty, .LeftHand, .RightFoot],
       [.Head, .Head], [.Tail]] ⟨2⟩).has_player_won .RightFoot = false := by decide

/-- A row check holds exactly when each of the `offset` scanned cells
(from the back of the row when `reversed`) is the piece. -/
lemma rowCheck_iff (piece : Piece) (pl : Nat) (rev inc : Bool) (n : Nat) (row : List Piece)
    (hoff : zoneOffset inc pl n ≤ row.length) :
    rowCheck piece pl rev inc n row = true ↔
      ∀ j, j < zoneOffset inc pl n →
        row[if rev then row.length - 1 - j else j]? = some piece := by
  unfold rowCheck
  have hL : (if rev then row.reverse.take (zoneOffset inc pl n)
        else row.take (zoneOffset inc pl n))
      = (if rev then row.reverse else row).take (zoneOffset inc pl n) := by
    split <;> rfl
  have hlen0 : (if rev then row.reverse else row).length = row.length := by
    split <;> simp
  have hget0 : ∀ j, j < row.length →
      (if rev then row.reverse else row)[j]?
        = row[if rev then row.length - 1 - j else j]? := by
    intro j hj
    split
    · rw [List.getElem?_reverse (by simpa using hj)]
    · rfl
  rw [hL, List.all_eq_true]
  constructor
  · intro h j hj
    have hjlen : j < (if rev then row.reverse else row).length := by omega
    have hmem : (if rev then row.reverse else row)[j] ∈
        (if rev then row.reverse else row).take (zoneOffset inc pl n) :=
      List.mem_iff_getElem?.mpr
        ⟨j, by rw [List.getElem?_take, if_pos hj, List.getElem?_eq_getElem hjlen]⟩
    have hx := h _ hmem
    rw [beq_iff_eq] at hx
    rw [← hget0 j (by omega), List.getElem?_eq_getElem hjlen, hx]
  · intro h x hx
    obtain ⟨j, hj⟩ := List.mem_iff_getElem?.mp hx
    rw [List.getElem?_take] at hj
    by_cases hjo : j < zoneOffset inc pl n
    · rw [if_pos hjo] at hj
      have hjlen : j < row.length := by omega
      have hp := h j hjo
      rw [← hget0 j hjlen] at hp
      injection hp.symm.trans hj with heq
      exact beq_iff_eq.mpr heq.symm
    · rw [if_neg hjo] at hj
      exact absurd hj (by simp)

/-- The zone scan succeeds exactly when every scanned row passes its
row check, at the counter value equal to its index. -/
lemma wonRows_eq_true_iff (piece : Piece) (pl : Nat) (rev inc : Bool)
    (rows : List (List Piece)) (n0 : Nat) :
    wonRows piece pl rev inc rows n0 = true ↔
      ∀ m row, rows[m]? = some row → rowCheck piece pl rev inc (n0 + m) row = true := by
  induction rows generalizing n0 with
  | nil => simp [wonRows]
  | cons row rest ih =>
    rw [wonRows, Bool.and_eq_true, ih]
    constructor
    · rintro ⟨h0, hrest⟩ m row' hm
      cases m with
      | zero =>
        rw [List.getElem?_cons_zero] at hm
        cases hm
        simpa using h0
      | succ k =>
        rw [List.getElem?_cons_succ] at hm
        have hk := hrest k row' hm
        have harith : n0 + (k + 1) = n0 + 1 + k := by omega
        rw [harith]
        exact hk
    · intro h
      refine ⟨?_, ?_⟩
      · have h0 := h 0 row List.getElem?_cons_zero
        simpa using h0
      · intro k row' hk
        have hs := h (k + 1) row' (by rw [List.getElem?_cons_succ]; exact hk)
        have harith : n0 + 1 + k = n0 + (k + 1) := by omega
        rw [harith]
        exact hs

/-- In-range rows of the size-`N` board have width `rowWidth`. -/
lemma stdBoard_row_length (N k : Nat) (hk : k < 4 * N + 1) (row : List Piece)
    (hrow : (stdBoard N).rows[k]? = some row) : row.length = rowWidth N k := by
  obtain ⟨row', hrow', hlen'⟩ := starRows_get N k hk
  rw [stdBoard_rows] at hrow
  injection hrow'.symm.trans hrow with heq
  rw [← heq]
  exact hlen'

/-- Generic shape of the win-detector characterization, for any zone
whose rows fit their offsets. -/
lemma has_player_won_iff_aux (N : Nat) (hN : 1 ≤ N) (piece : Piece)
    (rev inc : Bool) (start : Nat)
    (hz : zoneParams piece N = some (rev, inc, start))
    (hstart : start + N ≤ 4 * N + 1)
    (hoff : ∀ n, n < N → zoneOffset inc N n ≤ rowWidth N (start + n)) :
    ((stdBoard N).has_player_won piece = true ↔
      ∀ n, n < N → ∀ row, (stdBoard N).rows[start + n]? = some row →
        ∀ j, j < zoneOffset inc N n →
          row[if rev then row.length - 1 - j else j]? = some piece) := by
  unfold Board.has_player_won
  rw [stdBoard_pl, hz]
  show wonRows piece N rev inc (((stdBoard N).rows.drop start).take N) 0 = true ↔ _
  rw [wonRows_eq_true_iff]
  constructor
  · intro h n hn row hrow j hj
    have hm : (((stdBoard N).rows.drop start).take N)[n]? = some row := by
      rw [List.getElem?_take, if_pos hn, List.getElem?_drop]
      exact hrow
    have hc := h n row hm
    rw [Nat.zero_add] at hc
    have hlen := stdBoard_row_length N (start + n) (by omega) row hrow
    exact (rowCheck_iff piece N rev inc n row (by rw [hlen]; exact hoff n hn)).mp hc j hj
  · intro h m row hm
    rw [List.getElem?_take] at hm
    by_cases hmN : m < N
    · rw [if_pos hmN, List.getElem?_drop] at hm
      have hlen := stdBoard_row_length N (start + m) (by omega) row hm
      rw [Nat.zero_add]
      exact (rowCheck_iff piece N rev inc m row (by rw [hlen]; exact hoff m hmN)).mpr
        fun j hj => h m hmN row hm j hj
    · rw [if_neg hmN] at hm
      exact absurd hm (by simp)

lemma sum_range_succ_mul_two (N : Nat) :
    (∑ n ∈ Finset.range N, (n + 1)) * 2 = N * (N + 1) := by
  induction N with
  | zero => rfl
  | succ k ih =>
    rw [Finset.sum_range_succ, add_mul, ih]
    ring

/-- The zone offsets of a size-`N` zone sum to `N(N+1)/2` cells. -/
lemma sum_zoneOffset (N : Nat) (inc : Bool) :
    ∑ n ∈ Finset.range N, zoneOffset inc N n = N * (N + 1) / 2 := by
  have base : ∑ n ∈ Finset.range N, (n + 1) = N * (N + 1) / 2 := by
    rw [← sum_range_succ_mul_two N, Nat.mul_div_cancel _ (by norm_num)]
  cases inc with
  | true => simpa only [zoneOffset_true] using base
  | false =>
    have h1 := Finset.sum_range_reflect (fun j => N - j) N
    have h2 : ∑ j ∈ Finset.range N, (N - (N - 1 - j)) = ∑ j ∈ Finset.range N, (j + 1) :=
      Finset.sum_congr rfl fun j hj => by
        rw [Finset.mem_range] at hj
        omega
    calc ∑ n ∈ Finset.range N, zoneOffset false N n
        = ∑ j ∈ Finset.range N, (N - j) := by simp only [zoneOffset_false]
      _ = ∑ j ∈ Finset.range N, (j + 1) := by rw [← h1, h2]
      _ = N * (N + 1) / 2 := base

/-- C7: `has_player_won` is false for `Empty`, and for a player piece
with zone parameters `(rev, inc, start)` it is true exactly when every
cell of the triangular sub-ranges of the `N` zone rows equals the
piece; those sub-ranges comprise `N(N+1)/2` cells. -/
theorem spec_c7_win_detector (N : Nat) (hN : 1 ≤ N) (piece : Piece) :
    ((stdBoard N).has_player_won Piece.Empty = false) ∧
    (∀ rev inc start, zoneParams piece N = some (rev, inc, start) →
      (((stdBoard N).has_player_won piece = true ↔
        ∀ n, n < N → ∀ row, (stdBoard N).rows[start + n]? = some row →
          ∀ j, j < zoneOffset inc N n →
            row[if rev then row.length - 1 - j else j]? = some piece) ∧
       ∑ n ∈ Finset.range N, zoneOffset inc N n = N * (N + 1) / 2)) := by
  refine ⟨rfl, ?_⟩
  intro rev inc start hz
  refine ⟨?_, sum_zoneOffset N inc⟩
  cases piece with
  | Empty => exact absurd hz (by simp [zoneParams])
  | Head =>
    simp only [zoneParams, Option.some.injEq, Prod.mk.injEq] at hz
    obtain ⟨rfl, rfl, rfl⟩ := hz
    exact has_player_won_iff_aux N hN .Head false false (N * 3 + 1) rfl (by omega)
      fun n hn => by rw [zoneOffset_false]; unfold rowWidth; split_ifs <;> omega
  | Tail =>
    simp only [zoneParams, Option.some.injEq, Prod.mk.injEq] at hz
    obtain ⟨rfl, rfl, rfl⟩ := hz
    exact has_player_won_iff_aux N hN .Tail false true 0 rfl (by omega)
      fun n hn => by rw [zoneOffset_true]; unfold rowWidth; split_ifs <;> omega
  | LeftHand =>
    simp only [zoneParams, Option.some.injEq, Prod.mk.injEq] at hz
    obtain ⟨rfl, rfl, rfl⟩ := hz
    exact has_player_won_iff_aux N hN .LeftHand true true (N * 2 + 1) rfl (by omega)
      fun n hn => by rw [zoneOffset_true]; unfold rowWidth; split_ifs <;> omega
  | RightHand =>
    simp only [zoneParams, Option.some.injEq, Prod.mk.injEq] at hz
    obtain ⟨rfl, rfl, rfl⟩ := hz
    exact has_player_won_iff_aux N hN .RightHand false true (N * 2 + 1) rfl (by omega)
      fun n hn => by rw [zoneOffset_true]; unfold rowWidth; split_ifs <;> omega
  | LeftFoot =>
    simp only [zoneParams, Option.some.injEq, Prod.mk.injEq] at hz
    obtain ⟨rfl, rfl, rfl⟩ := hz
    exact has_player_won_iff_aux N hN .LeftFoot true false N rfl (by omega)
      fun n hn => by rw [zoneOffset_false]; unfold rowWidth; split_ifs <;> omega
  | RightFoot =>
    simp only [zoneParams, Option.some.injEq, Prod.mk.injEq] at hz
    obtain ⟨rfl, rfl, rfl⟩ := hz
    exact has_player_won_iff_aux N hN .RightFoot false false N rfl (by omega)
      fun n hn => by rw [zoneOffset_false]; unfold rowWidth; split_ifs <;> omega

theorem spec_c7_witness :
    (stdBoard 1).has_player_won Piece.Empty = false ∧
    ∑ n ∈ Finset.range 1, zoneOffset true 1 n = 1 * (1 + 1) / 2 :=
  ⟨(spec_c7_win_detector 1 (by omega) .Tail).1,
   ((spec_c7_win_detector 1 (by omega) .Tail).2 false true 0 rfl).2⟩

/-- Setting an entry to the value it already holds is the identity. -/
lemma list_set_getElem?_id {α : Type _} {l : List α} {i : Nat} {v : α}
    (h : l[i]? = some v) : l.set i v = l := by
  obtain ⟨hlt, -⟩ := List.getElem?_eq_some.mp h
  apply List.ext_getElem?
  intro n
  rw [List.getElem?_set]
  by_cases hin : i = n
  · subst hin
    rw [if_pos rfl, if_pos hlt]
    exact h.symm
  · rw [if_neg hin]

/-- Equation of `setCell` at a missing row. -/
lemma setCell_none {rows : List (List Piece)} {i : Nat} (j : Nat) (p : Piece)
    (h : rows[i]? = none) : setCell rows i j p = rows := by
  unfold setCell
  rw [h, Option.elim_none]

/-- Equation of `setCell` at a present row. -/
lemma setCell_some {rows : List (List Piece)} {i : Nat} {row : List Piece}
    (h : rows[i]? = some row) (j : Nat) (p : Piece) :
    setCell rows i j p = rows.set i (row.set j p) := by
  unfold setCell
  rw [h, Option.elim_some]

/-- Row lookup after a cell write. -/
lemma setCell_getElem? (rows : List (List Piece)) (i j : Nat) (p : Piece) (k : Nat) :
    (setCell rows i j p)[k]?
      = if i = k then (rows[k]?).map (fun row => row.set j p) else rows[k]? := by
  cases h : rows[i]? with
  | none =>
    rw [setCell_none j p h]
    by_cases hik : i = k
    · subst hik
      rw [if_pos rfl, h]
      rfl
    · rw [if_neg hik]
  | some row =>
    rw [setCell_some h j p, List.getElem?_set]
    obtain ⟨hlt, -⟩ := List.getElem?_eq_some.mp h
    by_cases hik : i = k
    · subst hik
      rw [if_pos rfl, if_pos rfl, if_pos hlt, h]
      rfl
    · rw [if_neg hik, if_neg hik]

/-- A cell write never changes any row's length. -/
lemma setCell_shape (rows : List (List Piece)) (i j : Nat) (p : Piece) (k : Nat) :
    ((setCell rows i j p)[k]?).map List.length = (rows[k]?).map List.length := by
  rw [setCell_getElem?]
  split
  · cases rows[k]? <;> simp
  · rfl

/-- Reading any other cell after a cell write. -/
lemma cellAt_setCell_ne (rows : List (List Piece)) (i j i' j' : Nat) (p : Piece)
    (hne : ¬(i = i' ∧ j = j')) :
    cellAt (setCell rows i j p) i' j' = cellAt rows i' j' := by
  unfold cellAt
  rw [setCell_getElem?]
  by_cases hii : i = i'
  · rw [if_pos hii]
    cases h : rows[i']? with
    | none => rfl
    | some row =>
      rw [Option.map_some', Option.some_bind, Option.some_bind]
      exact List.getElem?_set_ne fun hjj => hne ⟨hii, hjj⟩
  · rw [if_neg hii]

/-- Reading back a written cell that exists. -/
lemma cellAt_setCell_self (rows : List (List Piece)) (i j : Nat) (v w : Piece)
    (h : cellAt rows i j = some w) : cellAt (setCell rows i j v) i j = some v := by
  unfold cellAt at h ⊢
  cases hr : rows[i]? with
  | none => rw [hr, Option.none_bind] at h; exact absurd h (by simp)
  | some row =>
    rw [hr, Option.some_bind] at h
    obtain ⟨hlt, -⟩ := List.getElem?_eq_some.mp h
    rw [setCell_getElem?, if_pos rfl, hr, Option.map_some', Option.some_bind,
      List.getElem?_set, if_pos rfl, if_pos hlt]

/-- Two writes to the same cell keep only the second. -/
lemma setCell_collapse (rows : List (List Piece)) (i j : Nat) (a b : Piece) :
    setCell (setCell rows i j a) i j b = setCell rows i j b := by
  cases hr : rows[i]? with
  | none => rw [setCell_none j a hr]
  | some row =>
    rw [setCell_some hr j a]
    have h2 : (rows.set i (row.set j a))[i]? = some (row.set j a) := by
      obtain ⟨hlt, -⟩ := List.getElem?_eq_some.mp hr
      rw [List.getElem?_set, if_pos rfl, if_pos hlt]
    rw [setCell_some h2 j b, List.set_set, List.set_set, setCell_some hr j b]

/-- Writing the value a cell already holds is the identity. -/
lemma setCell_id (rows : List (List Piece)) (i j : Nat) (v : Piece)
    (h : cellAt rows i j = some v) : setCell rows i j v = rows := by
  unfold cellAt at h
  cases hr : rows[i]? with
  | none => rw [hr, Option.none_bind] at h; exact absurd h (by simp)
  | some row =>
    rw [hr, Option.some_bind] at h
    rw [setCell_some hr j v, list_set_getElem?_id h, list_set_getElem?_id hr]

/-- The coordinate mapper depends only on the configuration and the
row lengths, not on cell contents. -/
lemma get_index_pair_shape {b b' : Board} (hcfg : b'.config = b.config)
    (hshape : ∀ k : Nat, (b'.rows[k]?).map List.length = (b.rows[k]?).map List.length)
    (q : Point) : b'.get_index_pair q = b.get_index_pair q := by
  unfold Board.get_index_pair
  by_cases hr : q.row ≤ 0
  · rw [if_pos hr, if_pos hr]
  rw [if_neg hr, if_neg hr, hcfg]
  have hk := hshape (q.row - 1).toNat
  cases hb : b.rows[(q.row - 1).toNat]? with
  | none =>
    rw [hb] at hk
    have hb' : b'.rows[(q.row - 1).toNat]? = none := by
      cases hx : b'.rows[(q.row - 1).toNat]? with
      | none => rfl
      | some r => rw [hx] at hk; exact absurd hk (by simp)
    rw [hb']
  | some row =>
    rw [hb] at hk
    cases hb' : b'.rows[(q.row - 1).toNat]? with
    | none => rw [hb'] at hk; exact absurd hk (by simp)
    | some row' =>
      rw [hb'] at hk
      simp only [Option.map_some', Option.some.injEq] at hk
      rw [Option.some_bind, Option.some_bind]
      by_cases hc : q.column < 0
      · rw [if_pos hc, if_pos hc]
      rw [if_neg hc, if_neg hc]
      have hvc : validColumnsFor (b.config.player_lines.toNat * 3 + 1) row'
          = validColumnsFor (b.config.player_lines.toNat * 3 + 1) row := by
        unfold validColumnsFor
        rw [hk]
      rw [hvc]

/-- The distance measure is symmetric. -/
lemma distance_symm (s t : Point) : distance s t = distance t s := by
  unfold distance
  by_cases h : s.row - t.row = 0
  · rw [if_pos h, if_pos (by omega)]
    congr 1
    omega
  · rw [if_neg h, if_neg (by omega)]
    omega

/-- Inversion of a successful `apply_move`. -/
lemma apply_move_ok {b : Board} {s t : Point} {p : Piece} {b' : Board}
    (h : b.apply_move s t p = (.ok (), b')) :
    ∃ si ti, b.get_index_pair s = some si ∧ b.get_index_pair t = some ti ∧
      b' = { b with
        rows := setCell (setCell b.rows si.row si.column Piece.Empty)
          ti.row ti.column p } := by
  cases hsi : b.get_index_pair s with
  | none =>
    unfold Board.apply_move at h
    rw [hsi, Option.elim_none] at h
    exact absurd (congrArg Prod.fst h) (by simp)
  | some si =>
    cases hti : b.get_index_pair t with
    | none =>
      unfold Board.apply_move at h
      rw [hsi, Option.elim_some, hti, Option.elim_none] at h
      exact absurd (congrArg Prod.fst h) (by simp)
    | some ti =>
      unfold Board.apply_move at h
      rw [hsi, Option.elim_some, hti, Option.elim_some] at h
      exact ⟨si, ti, rfl, rfl, (congrArg Prod.snd h).symm⟩

/-- Inversion of a successful `move_piece`: all checks passed and the
result is the two-cell update. -/
lemma move_piece_ok {b : Board} {s t : Point} {p : Piece} {b' : Board}
    (h : b.move_piece s t p = (.ok (), b')) :
    ¬(s = t ∨ 2 < distance s t) ∧
    b.get_piece s = some p ∧
    b.get_piece t = some Piece.Empty ∧
    ∃ si ti, b.get_index_pair s = some si ∧ b.get_index_pair t = some ti ∧
      b' = { b with
        rows := setCell (setCell b.rows si.row si.column Piece.Empty)
          ti.row ti.column p } := by
  by_cases h1 : s = t ∨ 2 < distance s t
  · have hval : b.move_piece s t p = (.error .NoRoute, b) := by
      unfold Board.move_piece
      rw [if_pos h1]
    rw [hval] at h
    exact absurd (congrArg Prod.fst h) (by simp)
  refine ⟨h1, ?_⟩
  cases hgs : b.get_piece s with
  | none =>
    have hval : b.move_piece s t p = (.error .OutOfBounds, b) := by
      unfold Board.move_piece
      rw [if_neg h1, hgs, Option.elim_none]
    rw [hval] at h
    exact absurd (congrArg Prod.fst h) (by simp)
  | some sp =>
    by_cases hsp : sp ≠ p
    · have hval : b.move_piece s t p = (.error .WrongPlayer, b) := by
        unfold Board.move_piece
        rw [if_neg h1, hgs, Option.elim_some, if_pos hsp]
      rw [hval] at h
      exact absurd (congrArg Prod.fst h) (by simp)
    push_neg at hsp
    rw [hsp] at hgs
    cases hgt : b.get_piece t with
    | none =>
      have hval : b.move_piece s t p = (.error .OutOfBounds, b) := by
        unfold Board.move_piece
        rw [if_neg h1, hgs, Option.elim_some, if_neg (show ¬p ≠ p by simp), hgt,
          Option.elim_none]
      rw [hval] at h
      exact absurd (congrArg Prod.fst h) (by simp)
    | some tp =>
      by_cases htp : tp ≠ Piece.Empty
      · have hval : b.move_piece s t p = (.error .OccupiedTarget, b) := by
          unfold Board.move_piece
          rw [if_neg h1, hgs, Option.elim_some, if_neg (show ¬p ≠ p by simp), hgt,
            Option.elim_some, if_pos htp]
        rw [hval] at h
        exact absurd (congrArg Prod.fst h) (by simp)
      push_neg at htp
      rw [htp] at hgt
      by_cases hd2 : distance s t = 2
      · cases hgm : b.get_piece
            ⟨max s.row t.row - 1, max s.column t.column - 1⟩ with
        | none =>
          have hval : b.move_piece s t p = (.error .OutOfBounds, b) := by
            unfold Board.move_piece
            rw [if_neg h1, hgs, Option.elim_some, if_neg (show ¬p ≠ p by simp), hgt,
              Option.elim_some, if_neg (show ¬Piece.Empty ≠ Piece.Empty by simp), if_pos hd2, hgm,
              Option.elim_none]
          rw [hval] at h
          exact absurd (congrArg Prod.fst h) (by simp)
        | some mp =>
          by_cases hmp : mp = Piece.Empty
          · have hval : b.move_piece s t p = (.error .NoRoute, b) := by
              unfold Board.move_piece
              rw [if_neg h1, hgs, Option.elim_some, if_neg (show ¬p ≠ p by simp), hgt,
                Option.elim_some, if_neg (show ¬Piece.Empty ≠ Piece.Empty by simp), if_pos hd2, hgm,
                Option.elim_some, if_pos hmp]
            rw [hval] at h
            exact absurd (congrArg Prod.fst h) (by simp)
          · have hval : b.move_piece s t p = b.apply_move s t p := by
              unfold Board.move_piece
              rw [if_neg h1, hgs, Option.elim_some, if_neg (show ¬p ≠ p by simp), hgt,
                Option.elim_some, if_neg (show ¬Piece.Empty ≠ Piece.Empty by simp), if_pos hd2, hgm,
                Option.elim_some, if_neg hmp]
            rw [hval] at h
            exact ⟨by rw [hsp], by rw [htp], apply_move_ok h⟩
      · have hval : b.move_piece s t p = b.apply_move s t p := by
          unfold Board.move_piece
          rw [if_neg h1, hgs, Option.elim_some, if_neg (show ¬p ≠ p by simp), hgt,
            Option.elim_some, if_neg (show ¬Piece.Empty ≠ Piece.Empty by simp), if_neg hd2]
        rw [hval] at h
        exact ⟨by rw [hsp], by rw [htp], apply_move_ok h⟩

/-- C5: a successful move followed by its exact geometric reverse with
the same player restores the board, given the reverse destination is
empty and any required jump midpoint condition still holds. -/
theorem spec_c5_round_trip (b : Board) (s t : Point) (p : Piece) (b' : Board)
    (hmove : b.move_piece s t p = (.ok (), b'))
    (hdest : b'.get_piece s = some Piece.Empty)
    (hmid : distance t s = 2 →
      b'.get_piece ⟨max t.row s.row - 1, max t.column s.column - 1⟩ ≠ none ∧
      b'.get_piece ⟨max t.row s.row - 1, max t.column s.column - 1⟩
        ≠ some Piece.Empty) :
    b'.move_piece t s p = (.ok (), b) := by
  obtain ⟨hne, hs, ht, si, ti, hsi, hti, hb'⟩ := move_piece_ok hmove
  have hcellS : cellAt b.rows si.row si.column = some p := by
    obtain ⟨pr, hpr, hcell⟩ := get_piece_some_pair hs
    injection hpr.symm.trans hsi with e
    rw [← e]
    exact hcell
  have hcellT : cellAt b.rows ti.row ti.column = some Piece.Empty := by
    obtain ⟨pr, hpr, hcell⟩ := get_piece_some_pair ht
    injection hpr.symm.trans hti with e
    rw [← e]
    exact hcell
  have hshape : ∀ k : Nat, (b'.rows[k]?).map List.length = (b.rows[k]?).map List.length := by
    intro k
    simp only [hb']
    rw [setCell_shape, setCell_shape]
  have hcfg : b'.config = b.config := by simp only [hb']
  have hgip : ∀ q, b'.get_index_pair q = b.get_index_pair q :=
    get_index_pair_shape hcfg hshape
  have hXt : ∃ w, cellAt (setCell b.rows si.row si.column Piece.Empty) ti.row ti.column
      = some w := by
    by_cases hp2 : si.row = ti.row ∧ si.column = ti.column
    · obtain ⟨e1, e2⟩ := hp2
      rw [← e1, ← e2]
      exact ⟨Piece.Empty, cellAt_setCell_self _ _ _ _ _ hcellS⟩
    · exact ⟨Piece.Empty, by rw [cellAt_setCell_ne _ _ _ _ _ _ hp2]; exact hcellT⟩
  have hsrc : b'.get_piece t = some p := by
    show (b'.get_index_pair t).bind (fun pair => cellAt b'.rows pair.row pair.column)
      = some p
    rw [hgip t, hti, Option.some_bind]
    obtain ⟨w, hXt⟩ := hXt
    simp only [hb']
    exact cellAt_setCell_self _ _ _ _ _ hXt
  have hR3 : setCell (setCell b'.rows ti.row ti.column Piece.Empty) si.row si.column p
      = b.rows := by
    simp only [hb']
    rw [setCell_collapse]
    by_cases hp2 : si.row = ti.row ∧ si.column = ti.column
    · obtain ⟨e1, e2⟩ := hp2
      rw [← e1, ← e2, setCell_collapse, setCell_collapse]
      exact setCell_id _ _ _ _ hcellS
    · have hXtE : cellAt (setCell b.rows si.row si.column Piece.Empty) ti.row ti.column
          = some Piece.Empty := by
        rw [cellAt_setCell_ne _ _ _ _ _ _ hp2]
        exact hcellT
      rw [setCell_id _ _ _ _ hXtE, setCell_collapse]
      exact setCell_id _ _ _ _ hcellS
  have happly : b'.apply_move t s p = (.ok (), b) := by
    unfold Board.apply_move
    rw [hgip t, hti, Option.elim_some, hgip s, hsi, Option.elim_some]
    refine congrArg (Prod.mk (Except.ok ())) ?_
    rw [hR3, hcfg]
  have hner : ¬(t = s ∨ 2 < distance t s) := by
    have hne2 : s ≠ t ∧ distance s t ≤ 2 := by
      push_neg at hne
      exact hne
    intro h
    rcases h with h' | h'
    · exact hne2.1 h'.symm
    · rw [← distance_symm s t] at h'
      omega
  unfold Board.move_piece
  rw [if_neg hner, hsrc, Option.elim_some, if_neg (show ¬p ≠ p by simp), hdest,
    Option.elim_some, if_neg (show ¬Piece.Empty ≠ Piece.Empty by simp)]
  by_cases hd2 : distance t s = 2
  · rw [if_pos hd2]
    obtain ⟨hm1, hm2⟩ := hmid hd2
    cases hgm : b'.get_piece ⟨max t.row s.row - 1, max t.column s.column - 1⟩ with
    | none => exact absurd hgm hm1
    | some mq =>
      rw [Option.elim_some,
        if_neg (show ¬mq = Piece.Empty from fun hh => hm2 (by rw [← hh]; exact hgm))]
      exact happly
  · rw [if_neg hd2]
    exact happly

theorem spec_c5_witness :
    (stdBoard 1).move_piece ⟨1, 4⟩ ⟨2, 3⟩ .Head
      = (.ok (), Board.mk
          [[.Empty], [.LeftHand, .Head, .Empty, .RightHand], [.Empty, .Empty, .Empty],
           [.LeftFoot, .Empty, .Empty, .RightFoot], [.Tail]] ⟨1⟩) ∧
    (Board.mk
        [[.Empty], [.LeftHand, .Head, .Empty, .RightHand], [.Empty, .Empty, .Empty],
         [.LeftFoot, .Empty, .Empty, .RightFoot], [.Tail]] ⟨1⟩).move_piece
      ⟨2, 3⟩ ⟨1, 4⟩ .Head = (.ok (), stdBoard 1) :=
  ⟨by decide,
   spec_c5_round_trip (stdBoard 1) ⟨1, 4⟩ ⟨2, 3⟩ .Head
     (Board.mk
       [[.Empty], [.LeftHand, .Head, .Empty, .RightHand], [.Empty, .Empty, .Empty],
        [.LeftFoot, .Empty, .Empty, .RightFoot], [.Tail]] ⟨1⟩)
     (by decide) (by decide) (by decide)⟩
